import Mathlib

/-!
Verification of the MPC control-loop manager specification for the
control-toolbox iLQG-MPC example (`ct_optcon/examples/iLQG_MPC.cpp`).

The repository sources provide the example harness (the MPC loop in `main`);
the MPC core itself (`MPC::run`, horizon handling, warm starting) is part of
the library, not of the source tree verified here, so the core is modelled
from the specification text (section 4 of the spec).  Times and controls are
modelled with exact rationals; the trajectory optimizer backend is an opaque
oracle parameter, as the spec declares it out of scope.
-/

set_option maxRecDepth 4000

namespace CtMpc

/-- Modelled from the spec (section 3, Data Model): a Policy is an ordered
sequence of feed-forward controls and feedback gains sampled at fixed
timestep `dt`, plus a start timestamp `t0`.  Controls and gains are
abstracted to scalars (the spec treats linear algebra as an opaque
substrate). -/
structure Policy where
  uff : List ℚ
  fb : List ℚ
  t0 : ℚ
  dt : ℚ
deriving DecidableEq

/-- Modelled from the spec (section 3): a Trajectory is an ordered sequence of
state samples tagged with offsets from a start time, at fixed step `dt`. -/
structure Trajectory where
  tStart : ℚ
  dt : ℚ
  points : List (List ℚ)
deriving DecidableEq

/-- Modelled from the spec (section 3): immutable problem description; the
core only updates the initial state and horizon.  `timeHorizon` is the
absolute final time for FixedFinalTime mode and the constant horizon length
for ConstantReceding mode. -/
structure Problem where
  stateDim : Nat
  x0 : List ℚ
  timeHorizon : ℚ
deriving DecidableEq

/-- Modelled from the spec (section 4.3): the two horizon semantics. -/
inductive HorizonMode where
  | FixedFinalTime
  | ConstantReceding
deriving DecidableEq

/-- Modelled from the spec (section 3): per-cycle statistics record. -/
structure CycleRecord where
  optDuration : ℚ
  tau : ℚ
  success : Bool
deriving DecidableEq

/-- Modelled from the spec (section 3): the recognized settings.
`additionalDelayUs` is in microseconds; `fixedDelay` (seconds) is the fixed
assumed delay used when `measureDelay` is disabled. -/
structure Settings where
  dt : ℚ
  maxIterations : Nat
  mode : HorizonMode
  coldStart : Bool
  stateForwardIntegration : Bool
  postTruncation : Bool
  measureDelay : Bool
  fixedDelay : ℚ
  delayMeasurementMultiplier : ℚ
  additionalDelayUs : ℚ
deriving DecidableEq

/-- Modelled from the spec (section 7): the fatal error kinds surfaced
synchronously by `run` (OptimizerFailure is recoverable and reported through
the `success` flag instead). -/
inductive MpcError where
  | TerminalState
  | OrderingViolation
  | DimensionMismatch
deriving DecidableEq

/-- Modelled from the spec (section 4.1): the result triple of `run`. -/
structure RunOutput where
  success : Bool
  policy : Policy
  policyTimestamp : ℚ
deriving DecidableEq

/-- Modelled from the spec (sections 3 and 5): the cross-cycle mutable state
owned by the MpcController — the previous Policy/Trajectory pair, the last
call time (for the ordering check), the last observed optimize duration (for
delay measurement), the terminal flag, and the appended cycle records. -/
structure MpcState where
  prevPolicy : Option Policy
  prevTraj : Option Trajectory
  lastTime : Option ℚ
  lastOptDuration : ℚ
  horizonReached : Bool
  records : List CycleRecord
deriving DecidableEq

/-- The initial (Idle) controller state. -/
def mpcInit : MpcState :=
  { prevPolicy := none, prevTraj := none, lastTime := none,
    lastOptDuration := 0, horizonReached := false, records := [] }

/-- Modelled from the spec (section 4.3, HorizonPolicy): remaining horizon
given the current time.  FixedFinalTime: `finalTime − currentTime`;
ConstantReceding: always the configured length. -/
def remainingHorizon (mode : HorizonMode) (prob : Problem) (currentTime : ℚ) : ℚ :=
  match mode with
  | .FixedFinalTime => prob.timeHorizon - currentTime
  | .ConstantReceding => prob.timeHorizon

/-- Number of discretization steps of a horizon: `round (rem / dt)`,
as in the example's `K = std::round(timeHorizon / dt)`. -/
def horizonSteps (rem dt : ℚ) : Nat :=
  (round (rem / dt)).toNat

/-- Modelled from the spec (section 4.1 step 2): estimated delay `tau`
between `currentTime` and policy hand-off. -/
def delayEstimate (cfg : Settings) (s : MpcState) : ℚ :=
  (if cfg.measureDelay then s.lastOptDuration * cfg.delayMeasurementMultiplier
   else cfg.fixedDelay) + cfg.additionalDelayUs / 1000000

/-- The time-ordering precondition check: `currentTime` must not move
backward relative to the previous call. -/
def orderViolated (lastTime : Option ℚ) (currentTime : ℚ) : Bool :=
  match lastTime with
  | none => false
  | some tp => decide (currentTime < tp)

/-- Sample a trajectory at an absolute time (nearest stored sample, clipped;
falls back to `default` when out of range). -/
def Trajectory.sample (tr : Trajectory) (t : ℚ) (default : List ℚ) : List ℚ :=
  tr.points.getD (⌊(t - tr.tStart) / tr.dt⌋).toNat default

/-- Modelled from the spec (section 4.1 step 3): state projection — predict
the state at policy-application time from the previous trajectory. -/
def projectState (s : MpcState) (measured : List ℚ) (tTarget : ℚ) : List ℚ :=
  match s.prevTraj with
  | some tr => tr.sample tTarget measured
  | none => measured

/-- Modelled from the spec (section 4.2): a default cold-start guess — zero
feed-forward, zero feedback, `K` steps. -/
def defaultGuess (K : Nat) (dt t0 : ℚ) : Policy :=
  { uff := List.replicate K 0, fb := List.replicate K 0, t0 := t0, dt := dt }

/-- Drop an elapsed prefix of `d` entries and extend/truncate to exactly
`Knew` entries, holding `pad` constant for the extension. -/
def shiftExtend (l : List ℚ) (d Knew : Nat) (pad : ℚ) : List ℚ :=
  let r := l.drop d
  (r ++ List.replicate (Knew - r.length) pad).take Knew

namespace WarmStartTransformer

/-- Modelled from the spec (section 4.2, WarmStartTransformer): time-shift the
previous Policy forward by `tau` (dropping the elapsed prefix, i.e.
`⌊tau/dt⌋` entries) and extend the tail to the new horizon `Knew` by holding
the last feed-forward/gain constant.  The timestep `dt` is preserved. -/
def transform (prev : Policy) (_tr : Trajectory) (_projState : List ℚ)
    (tau : ℚ) (Knew : Nat) : Policy :=
  let d : Nat := (⌊tau / prev.dt⌋).toNat
  { uff := shiftExtend prev.uff d Knew (prev.uff.getLastD 0),
    fb := shiftExtend prev.fb d Knew (prev.fb.getLastD 0),
    t0 := prev.t0 + (d : ℚ) * prev.dt,
    dt := prev.dt }

end WarmStartTransformer

/-- The trajectory optimizer backend, an external capability (spec section 1):
given the updated problem, the horizon step count, an initial-guess policy
and the iteration budget, it returns a refined policy and predicted
trajectory, or `none` on failure to converge. -/
def Optimizer : Type :=
  Problem → Nat → Policy → Nat → Option (Policy × Trajectory)

/-- A well-formed optimizer returns a policy with exactly the requested
number of steps and the configured timestep. -/
def OptimizerWF (opt : Optimizer) (dt : ℚ) : Prop :=
  ∀ prob K guess budget p tr, opt prob K guess budget = some (p, tr) →
    p.uff.length = K ∧ p.dt = dt

/-- Number of policy entries whose timestamp `t0 + i*dt` is earlier than
`tNow` (clipped to the policy length `K`). -/
def truncCount (t0 dt : ℚ) (K : Nat) (tNow : ℚ) : Nat :=
  min K (⌈(tNow - t0) / dt⌉.toNat)

/-- Modelled from the spec (section 4.1 step 6): post-truncation — drop the
policy prefix already elapsed by the wall-clock completion time. -/
def truncateBefore (p : Policy) (tNow : ℚ) : Policy :=
  let n := truncCount p.t0 p.dt p.uff.length tNow
  { uff := p.uff.drop n, fb := p.fb.drop n,
    t0 := p.t0 + (n : ℚ) * p.dt, dt := p.dt }

namespace MpcController

/-- Modelled from the spec (section 4.1, MpcController): one MPC cycle.
`currentTime` is the caller's timestamp, `completionTime` the wall-clock
time at which the call returns (used for post-truncation).  Effect sequence:
terminal-state check, ordering check, dimension check, horizon update,
delay estimation, state projection, warm start, optimize, post-process,
bookkeeping.  Optimizer failure is recoverable (`success = false`, previous
policy returned and retained); the other error kinds are fatal and leave the
state unchanged. -/
def run (opt : Optimizer) (cfg : Settings) (prob : Problem) (s : MpcState)
    (measuredState : List ℚ) (currentTime completionTime : ℚ) :
    Except MpcError RunOutput × MpcState :=
  if s.horizonReached then
    (Except.error MpcError.TerminalState, s)
  else if orderViolated s.lastTime currentTime then
    (Except.error MpcError.OrderingViolation, s)
  else if measuredState.length ≠ prob.stateDim then
    (Except.error MpcError.DimensionMismatch, s)
  else
    let rem := remainingHorizon cfg.mode prob currentTime
    let tau := delayEstimate cfg s
    let tApply := currentTime + tau
    let fallback := s.prevPolicy.getD (defaultGuess 0 cfg.dt tApply)
    if rem ≤ 0 then
      (Except.ok { success := false, policy := fallback,
                   policyTimestamp := fallback.t0 },
       { s with horizonReached := true, lastTime := some currentTime })
    else
      let K := horizonSteps rem cfg.dt
      let xProj := if cfg.stateForwardIntegration then
          projectState s measuredState tApply else measuredState
      let guess :=
        match s.prevPolicy, s.prevTraj, cfg.coldStart with
        | some p, some tr, false => WarmStartTransformer.transform p tr xProj tau K
        | _, _, _ => defaultGuess K cfg.dt tApply
      match opt { prob with x0 := xProj } K guess cfg.maxIterations with
      | none =>
        (Except.ok { success := false, policy := fallback,
                     policyTimestamp := fallback.t0 },
         { s with lastTime := some currentTime,
                  lastOptDuration := completionTime - currentTime,
                  records := s.records ++
                    [{ optDuration := completionTime - currentTime,
                       tau := tau, success := false }] })
      | some (pOpt, trOpt) =>
        let pStamped : Policy :=
          { uff := pOpt.uff, fb := pOpt.fb, t0 := tApply, dt := pOpt.dt }
        let pFinal := if cfg.postTruncation then
            truncateBefore pStamped completionTime else pStamped
        (Except.ok { success := true, policy := pFinal,
                     policyTimestamp := pFinal.t0 },
         { s with prevPolicy := some pFinal, prevTraj := some trOpt,
                  lastTime := some currentTime,
                  lastOptDuration := completionTime - currentTime,
                  records := s.records ++
                    [{ optDuration := completionTime - currentTime,
                       tau := tau, success := true }] })

end MpcController

/-- One input of a `run` call: measured state, current time, completion
time. -/
structure CallInput where
  x : List ℚ
  t : ℚ
  tc : ℚ
deriving DecidableEq

/-- Fold a sequence of `run` calls over the controller state. -/
def runSeq (opt : Optimizer) (cfg : Settings) (prob : Problem) :
    List CallInput → MpcState → MpcState
  | [], s => s
  | c :: cs, s =>
      runSeq opt cfg prob cs (MpcController.run opt cfg prob s c.x c.t c.tc).2

/-- Componentwise vector addition (for the example's noisy measured state). -/
def vecAdd (a b : List ℚ) : List ℚ :=
  List.zipWith (· + ·) a b

/-- First state of the stored optimal trajectory, as the example's
`stateTraj.front()` (falls back when no trajectory is stored yet). -/
def trajFront (s : MpcState) (fallback : List ℚ) : List ℚ :=
  match s.prevTraj with
  | some tr => tr.points.headD fallback
  | none => fallback

/-- The measured state fed to `run` at iteration `i` of the example loop
(`x0 = stateTraj.front() + noise` for `i > 0`, the start state at `i = 0`). -/
def loopMeasured (noise : Nat → List ℚ) (i : Nat) (s : MpcState)
    (x : List ℚ) : List ℚ :=
  if i = 0 then x else vecAdd (trajFront s x) (noise i)

/-- The break condition of one iteration of the example loop
(`timeHorizonReached() | !success` after the `run` call). -/
def loopBreak (opt : Optimizer) (cfg : Settings) (prob : Problem)
    (noise : Nat → List ℚ) (times ctimes : Nat → ℚ)
    (i : Nat) (s : MpcState) (x : List ℚ) : Bool :=
  let res := MpcController.run opt cfg prob s (loopMeasured noise i s x)
    (times i) (ctimes i)
  let ok := match res.1 with
    | .ok o => o.success
    | .error _ => false
  res.2.horizonReached || !ok

/-- The MPC loop of `iLQG_MPC.cpp` lines 139-168: at iteration `i` the
measured state is the stored trajectory's front state plus noise (except at
`i = 0`), one `run` cycle is executed at clock time `times i` (completing at
`ctimes i`), and the loop breaks when `timeHorizonReached() | !success`.
The fuel argument models `maxNumRuns`; the returned list is the trace of
`run` results, one per executed iteration. -/
def exampleLoop (opt : Optimizer) (cfg : Settings) (prob : Problem)
    (noise : Nat → List ℚ) (times ctimes : Nat → ℚ) :
    Nat → Nat → MpcState → List ℚ → List (Except MpcError RunOutput) × MpcState
  | _, 0, s, _ => ([], s)
  | i, fuel + 1, s, x =>
    let xm := loopMeasured noise i s x
    let res := MpcController.run opt cfg prob s xm (times i) (ctimes i)
    if loopBreak opt cfg prob noise times ctimes i s x then ([res.1], res.2)
    else
      let rest := exampleLoop opt cfg prob noise times ctimes (i + 1) fuel res.2 xm
      (res.1 :: rest.1, rest.2)

/-! Concrete instances used for witnesses: they mirror the example's setup
(`dt = 0.001`, horizon `3.0` s, 2-dimensional state). -/

/-- An always-converging optimizer oracle that returns its guess. -/
def optEcho : Optimizer :=
  fun prob _K guess _budget =>
    some (guess, { tStart := guess.t0, dt := guess.dt, points := [prob.x0] })

/-- An always-converging optimizer oracle that returns the default policy of
the requested length with timestep `1/1000`. -/
def optDefault : Optimizer :=
  fun prob K _guess _budget =>
    some (defaultGuess K (1 / 1000) 0,
      { tStart := 0, dt := 1 / 1000, points := [prob.x0] })

/-- A never-converging optimizer oracle. -/
def optFail : Optimizer :=
  fun _ _ _ _ => none

/-- The example's problem: 2-dimensional state, final time `3.0` s. -/
def probFix : Problem :=
  { stateDim := 2, x0 := [0, 0], timeHorizon := 3 }

/-- A short-horizon variant (3 ms, i.e. 3 steps) for cheap witnesses. -/
def probShort : Problem :=
  { stateDim := 2, x0 := [0, 0], timeHorizon := 3 / 1000 }

/-- Plain settings: `dt = 0.001`, fixed final time, cold start, no delay
compensation, no post-truncation. -/
def cfgPlain : Settings :=
  { dt := 1 / 1000, maxIterations := 5, mode := .FixedFinalTime,
    coldStart := true, stateForwardIntegration := false,
    postTruncation := false, measureDelay := false, fixedDelay := 0,
    delayMeasurementMultiplier := 1, additionalDelayUs := 0 }

/-- Constant receding-horizon variant of the plain settings. -/
def cfgReceding : Settings :=
  { cfgPlain with mode := .ConstantReceding }

/-- The output of the first plain cold-start cycle on the short problem. -/
def outShort : RunOutput :=
  { success := true,
    policy := { uff := List.replicate 3 0, fb := List.replicate 3 0,
                t0 := 0, dt := 1 / 1000 },
    policyTimestamp := 0 }

/-- The controller state after that first cycle. -/
def sShort : MpcState :=
  { prevPolicy := some outShort.policy,
    prevTraj := some { tStart := 0, dt := 1 / 1000, points := [[0, 0]] },
    lastTime := some 0, lastOptDuration := 0, horizonReached := false,
    records := [{ optDuration := 0, tau := 0, success := true }] }

/-- A small concrete policy for witnesses. -/
def pW : Policy :=
  { uff := [1, 2], fb := [3, 4], t0 := 5, dt := 1 / 10 }

/-- A small concrete trajectory for witnesses. -/
def trW : Trajectory :=
  { tStart := 0, dt := 1 / 10, points := [[0]] }

/-- Output of a failed (non-converging) cycle on `sShort`. -/
def outFailP : RunOutput :=
  { success := false, policy := outShort.policy, policyTimestamp := 0 }

/-- State after that failed cycle: only the bookkeeping fields change. -/
def sFailP : MpcState :=
  { sShort with
    records := [{ optDuration := 0, tau := 0, success := true },
                { optDuration := 0, tau := 0, success := false }] }

/-- Output of a failed first cycle from the initial state. -/
def outFail0 : RunOutput :=
  { success := false, policy := defaultGuess 0 (1 / 1000) 0, policyTimestamp := 0 }

/-- State after a failed first cycle at time 0. -/
def sFail0 : MpcState :=
  { mpcInit with
    lastTime := some 0,
    records := [{ optDuration := 0, tau := 0, success := false }] }

/-! ## Theorems -/

/-- Once the controller is in the Terminated state, `run` fails immediately
with a terminal-state error and leaves the state unchanged. -/
theorem run_terminal_eq (opt : Optimizer) (cfg : Settings) (prob : Problem)
    (s : MpcState) (x : List ℚ) (t tc : ℚ) (h : s.horizonReached = true) :
    MpcController.run opt cfg prob s x t tc = (Except.error MpcError.TerminalState, s) := by
  simp [MpcController.run, h]

/-- A terminated controller state is a fixed point of any call sequence. -/
theorem runSeq_terminal (opt : Optimizer) (cfg : Settings) (prob : Problem) :
    ∀ (calls : List CallInput) (s : MpcState), s.horizonReached = true →
      runSeq opt cfg prob calls s = s
  | [], _, _ => rfl
  | c :: cs, s, h => by
      rw [runSeq, run_terminal_eq opt cfg prob s c.x c.t c.tc h]
      exact runSeq_terminal opt cfg prob cs s h

/-- C3: `timeHorizonReached()` is monotone over every sequence of `run`
calls — once the terminal flag is set it remains set for the remainder of
the run — and every subsequent `run` call fails immediately with a
terminal-state error instead of producing a new policy. -/
theorem horizon_reached_monotone (opt : Optimizer) (cfg : Settings)
    (prob : Problem) (calls : List CallInput) (s : MpcState)
    (h : s.horizonReached = true) :
    (runSeq opt cfg prob calls s).horizonReached = true ∧
    ∀ (x : List ℚ) (t tc : ℚ),
      (MpcController.run opt cfg prob s x t tc).1 = Except.error MpcError.TerminalState := by
  constructor
  · rw [runSeq_terminal opt cfg prob calls s h]
    exact h
  · intro x t tc
    rw [run_terminal_eq opt cfg prob s x t tc h]

theorem horizon_reached_monotone_witness :
    (runSeq optEcho cfgPlain probFix [⟨[0, 0], 0, 0⟩]
        { mpcInit with horizonReached := true }).horizonReached = true ∧
    ∀ (x : List ℚ) (t tc : ℚ),
      (MpcController.run optEcho cfgPlain probFix
          { mpcInit with horizonReached := true } x t tc).1 =
        Except.error MpcError.TerminalState :=
  horizon_reached_monotone optEcho cfgPlain probFix _ _ rfl

/-- C4: the warm-start transform at zero elapsed time and unchanged horizon
is the identity on the previous policy. -/
theorem warm_start_tau_zero_identity (p : Policy) (tr : Trajectory)
    (xp : List ℚ) (hfb : p.fb.length = p.uff.length) :
    WarmStartTransformer.transform p tr xp 0 p.uff.length = p := by
  cases p with
  | mk uff fb t0 dt =>
    simp only at hfb
    have hd : (⌊(0 : ℚ) / dt⌋).toNat = 0 := by simp
    simp only [WarmStartTransformer.transform, hd, shiftExtend,
      List.drop_zero, Nat.cast_zero, zero_mul, add_zero, Policy.mk.injEq,
      and_true, true_and]
    constructor
    · simp
    · rw [← hfb]
      simp

theorem warm_start_tau_zero_identity_witness :
    pW.fb.length = pW.uff.length ∧
    WarmStartTransformer.transform pW trW [0] 0 pW.uff.length = pW :=
  ⟨by decide, warm_start_tau_zero_identity pW trW [0] (by decide)⟩

/-- In ConstantReceding mode with a positive configured horizon, one `run`
call never sets the terminal flag. -/
theorem run_receding_not_reached (opt : Optimizer) (cfg : Settings)
    (prob : Problem) (s : MpcState) (x : List ℚ) (t tc : ℚ)
    (hmode : cfg.mode = HorizonMode.ConstantReceding)
    (hpos : 0 < prob.timeHorizon)
    (hs : s.horizonReached = false) :
    (MpcController.run opt cfg prob s x t tc).2.horizonReached = false := by
  have hrem : remainingHorizon cfg.mode prob t = prob.timeHorizon := by
    simp [hmode, remainingHorizon]
  rw [MpcController.run]
  simp only [hs, Bool.false_eq_true, if_false, hrem, hpos.not_le]
  split
  · exact hs
  · split
    · exact hs
    · split
      · rfl
      · rfl

/-- ConstantReceding runs (positive horizon) never set the flag over any
call sequence. -/
theorem runSeq_receding_not_reached (opt : Optimizer) (cfg : Settings)
    (prob : Problem) (hmode : cfg.mode = HorizonMode.ConstantReceding)
    (hpos : 0 < prob.timeHorizon) :
    ∀ (calls : List CallInput) (s : MpcState), s.horizonReached = false →
      (runSeq opt cfg prob calls s).horizonReached = false
  | [], _, hs => hs
  | c :: cs, s, hs =>
      runSeq_receding_not_reached opt cfg prob hmode hpos cs _
        (run_receding_not_reached opt cfg prob s c.x c.t c.tc hmode hpos hs)

/-- C6: in ConstantReceding mode the remaining horizon equals the configured
constant length at every call time, and a run with a positive configured
horizon never self-terminates on time: the terminal flag stays false over
every sequence of `run` calls. -/
theorem constant_receding_invariant (opt : Optimizer) (cfg : Settings)
    (prob : Problem) (calls : List CallInput) (s : MpcState)
    (hmode : cfg.mode = HorizonMode.ConstantReceding)
    (hpos : 0 < prob.timeHorizon)
    (hs : s.horizonReached = false) :
    (∀ t : ℚ, remainingHorizon cfg.mode prob t = prob.timeHorizon) ∧
    (runSeq opt cfg prob calls s).horizonReached = false := by
  constructor
  · intro t
    simp [hmode, remainingHorizon]
  · exact runSeq_receding_not_reached opt cfg prob hmode hpos calls s hs

theorem constant_receding_invariant_witness :
    (∀ t : ℚ, remainingHorizon cfgReceding.mode probFix t = probFix.timeHorizon) ∧
    (runSeq optEcho cfgReceding probFix
        [⟨[0, 0], 0, 0⟩, ⟨[0, 0], 1, 1⟩, ⟨[0, 0], 100, 100⟩] mpcInit).horizonReached = false :=
  constant_receding_invariant optEcho cfgReceding probFix _ _ rfl
    (by norm_num [probFix]) rfl

/-- C2: on a cycle reported unsuccessful, the policy handed back equals the
stored previous policy, and the stored previous policy and trajectory are
not overwritten. -/
theorem run_failure_returns_previous (opt : Optimizer) (cfg : Settings)
    (prob : Problem) (s : MpcState) (x : List ℚ) (t tc : ℚ) (p : Policy)
    (out : RunOutput) (s' : MpcState)
    (hprev : s.prevPolicy = some p)
    (hrun : MpcController.run opt cfg prob s x t tc = (Except.ok out, s'))
    (hfail : out.success = false) :
    out.policy = p ∧ s'.prevPolicy = some p ∧ s'.prevTraj = s.prevTraj := by
  rw [MpcController.run] at hrun
  simp only [hprev, Option.getD_some] at hrun
  split at hrun
  · exact absurd hrun (by simp)
  · split at hrun
    · exact absurd hrun (by simp)
    · split at hrun
      · exact absurd hrun (by simp)
      · split at hrun
        · injection hrun with h1 h2
          injection h1 with h1
          subst h1
          exact ⟨rfl, h2 ▸ rfl, h2 ▸ rfl⟩
        · split at hrun
          · injection hrun with h1 h2
            injection h1 with h1
            subst h1
            exact ⟨rfl, h2 ▸ rfl, h2 ▸ rfl⟩
          · injection hrun with h1 h2
            injection h1 with h1
            rw [← h1] at hfail
            exact absurd hfail (by simp)

theorem run_failure_returns_previous_witness :
    outFailP.policy = outShort.policy ∧
    sFailP.prevPolicy = some outShort.policy ∧
    sFailP.prevTraj = sShort.prevTraj :=
  run_failure_returns_previous optFail cfgPlain probShort sShort [0, 0] 0 0
    outShort.policy outFailP sFailP rfl
    (by norm_num [MpcController.run, cfgPlain, probShort, sShort, outShort,
      optFail, orderViolated, remainingHorizon, delayEstimate, defaultGuess,
      outFailP, sFailP, mpcInit])
    rfl

/-- Any `run` call that returns a (success or failure) result records the
call time as the last call time. -/
theorem run_ok_lastTime (opt : Optimizer) (cfg : Settings) (prob : Problem)
    (s : MpcState) (x : List ℚ) (t tc : ℚ) (out : RunOutput) (s' : MpcState)
    (hrun : MpcController.run opt cfg prob s x t tc = (Except.ok out, s')) :
    s'.lastTime = some t := by
  simp only [MpcController.run] at hrun
  split at hrun
  · exact absurd hrun (by simp)
  · split at hrun
    · exact absurd hrun (by simp)
    · split at hrun
      · exact absurd hrun (by simp)
      · split at hrun
        · injection hrun with h1 h2
          exact h2 ▸ rfl
        · split at hrun
          · injection hrun with h1 h2
            exact h2 ▸ rfl
          · injection hrun with h1 h2
            exact h2 ▸ rfl

/-- C7: when a second `run` call uses a strictly smaller `currentTime` than
the previous completed call, it fails immediately with an OrderingViolation
and leaves the controller state — in particular the stored previous
policy — unchanged. -/
theorem ordering_violation_rejected (opt : Optimizer) (cfg : Settings)
    (prob : Problem) (s : MpcState) (x1 : List ℚ) (t1 tc1 : ℚ)
    (x2 : List ℚ) (t2 tc2 : ℚ) (out1 : RunOutput) (s1 : MpcState)
    (h1 : MpcController.run opt cfg prob s x1 t1 tc1 = (Except.ok out1, s1))
    (hterm : s1.horizonReached = false)
    (hlt : t2 < t1) :
    MpcController.run opt cfg prob s1 x2 t2 tc2 =
      (Except.error MpcError.OrderingViolation, s1) ∧
    (MpcController.run opt cfg prob s1 x2 t2 tc2).2.prevPolicy = s1.prevPolicy := by
  have hl : s1.lastTime = some t1 :=
    run_ok_lastTime opt cfg prob s x1 t1 tc1 out1 s1 h1
  have heq : MpcController.run opt cfg prob s1 x2 t2 tc2 =
      (Except.error MpcError.OrderingViolation, s1) := by
    rw [MpcController.run]
    simp [hterm, hl, orderViolated, hlt]
  exact ⟨heq, by rw [heq]⟩

theorem ordering_violation_rejected_witness :
    MpcController.run optFail cfgPlain probShort sFail0 [0, 0] (-1) (-1) =
      (Except.error MpcError.OrderingViolation, sFail0) ∧
    (MpcController.run optFail cfgPlain probShort sFail0 [0, 0] (-1) (-1)).2.prevPolicy =
      sFail0.prevPolicy :=
  ordering_violation_rejected optFail cfgPlain probShort mpcInit [0, 0] 0 0
    [0, 0] (-1) (-1) outFail0 sFail0
    (by norm_num [MpcController.run, cfgPlain, probShort, mpcInit, optFail,
      orderViolated, remainingHorizon, delayEstimate, defaultGuess,
      outFail0, sFail0])
    rfl (by norm_num)

/-- C5: FixedFinalTime horizon arithmetic with `finalTime = 3.0` and
`dt = 0.001`: at `currentTime = 3.0` the remaining horizon is exactly `0`
and a `run` call at that time makes `timeHorizonReached()` true; at
`currentTime = 2.999` the remaining horizon is exactly `0.001`. -/
theorem fixed_final_time_horizon_arithmetic :
    remainingHorizon HorizonMode.FixedFinalTime probFix 3 = 0 ∧
    remainingHorizon HorizonMode.FixedFinalTime probFix (2999 / 1000) = 1 / 1000 ∧
    (MpcController.run optEcho cfgPlain probFix mpcInit [0, 0] 3 3).2.horizonReached = true := by
  refine ⟨by norm_num [remainingHorizon, probFix],
    by norm_num [remainingHorizon, probFix], ?_⟩
  norm_num [MpcController.run, cfgPlain, probFix, mpcInit, orderViolated,
    remainingHorizon]

/-- C8: a cold-started first cycle on the 2-dimensional problem with
FixedFinalTime horizon `3.0` s and `dt = 0.001`, called at `t = 0`, returns
`success = true` and a policy of length `3000 = round(3.0 / 0.001)`. -/
theorem cold_start_first_cycle :
    probFix.stateDim = 2 ∧
    horizonSteps probFix.timeHorizon cfgPlain.dt = 3000 ∧
    ((MpcController.run optEcho cfgPlain probFix mpcInit [0, 0] 0 0).1).map
        (fun o => (o.success, o.policy.uff.length)) = Except.ok (true, 3000) := by
  refine ⟨rfl, ?_, ?_⟩
  · norm_num [horizonSteps, probFix, cfgPlain]
    decide
  · norm_num [MpcController.run, cfgPlain, probFix, mpcInit, orderViolated,
      remainingHorizon, delayEstimate, horizonSteps, defaultGuess, optEcho,
      Except.map]
    decide

/-- The concrete default-policy oracle is well formed for the plain
settings' timestep. -/
theorem optDefault_wf : OptimizerWF optDefault cfgPlain.dt := by
  intro prob K guess budget p tr h
  simp only [optDefault, Option.some.injEq, Prod.mk.injEq] at h
  obtain ⟨hp, -⟩ := h
  subst hp
  simp [defaultGuess, cfgPlain]

/-- C1: whenever `run` returns `success = true`, the returned policy starts
no earlier than the call's `currentTime`, and its length is the remaining
horizon divided by `dt` — minus the already-elapsed prefix dropped by
post-truncation when `postTruncation` is enabled (and exactly the horizon
steps when it is disabled). -/
theorem run_success_policy_length (opt : Optimizer) (cfg : Settings)
    (prob : Problem) (s : MpcState) (x : List ℚ) (t tc : ℚ)
    (out : RunOutput) (s' : MpcState)
    (hdt : 0 < cfg.dt)
    (htau : 0 ≤ delayEstimate cfg s)
    (hwf : OptimizerWF opt cfg.dt)
    (hrun : MpcController.run opt cfg prob s x t tc = (Except.ok out, s'))
    (hsucc : out.success = true) :
    t ≤ out.policy.t0 ∧
    out.policy.uff.length =
      horizonSteps (remainingHorizon cfg.mode prob t) cfg.dt -
        (if cfg.postTruncation then
          truncCount (t + delayEstimate cfg s) cfg.dt
            (horizonSteps (remainingHorizon cfg.mode prob t) cfg.dt) tc
         else 0) := by
  simp only [MpcController.run] at hrun
  split at hrun
  · exact absurd hrun (by simp)
  · split at hrun
    · exact absurd hrun (by simp)
    · split at hrun
      · exact absurd hrun (by simp)
      · split at hrun
        · injection hrun with h1 h2
          injection h1 with h1
          rw [← h1] at hsucc
          exact absurd hsucc (by simp)
        · split at hrun
          · injection hrun with h1 h2
            injection h1 with h1
            rw [← h1] at hsucc
            exact absurd hsucc (by simp)
          · rename_i pOpt trOpt heq
            obtain ⟨hlen, hdt2⟩ :=
              hwf _ _ _ _ _ _ heq
            injection hrun with h1 h2
            injection h1 with h1
            subst h1
            by_cases hpt : cfg.postTruncation
            · simp only [hpt, if_true]
              constructor
              · have hnn : (0 : ℚ) ≤
                    (truncCount (t + delayEstimate cfg s) pOpt.dt
                      pOpt.uff.length tc : ℚ) * pOpt.dt := by
                  rw [hdt2]
                  exact mul_nonneg (Nat.cast_nonneg _) hdt.le
                simp only [truncateBefore]
                linarith
              · simp only [truncateBefore, List.length_drop, hlen, hdt2]
            · simp only [hpt, if_false]
              constructor
              · show t ≤ t + delayEstimate cfg s
                linarith
              · simpa using hlen

theorem run_success_policy_length_witness :
    (0 : ℚ) ≤ outShort.policy.t0 ∧
    outShort.policy.uff.length =
      horizonSteps (remainingHorizon cfgPlain.mode probShort 0) cfgPlain.dt -
        (if cfgPlain.postTruncation then
          truncCount (0 + delayEstimate cfgPlain mpcInit) cfgPlain.dt
            (horizonSteps (remainingHorizon cfgPlain.mode probShort 0) cfgPlain.dt) 0
         else 0) :=
  run_success_policy_length optDefault cfgPlain probShort mpcInit [0, 0] 0 0
    outShort sShort (by norm_num [cfgPlain])
    (by norm_num [delayEstimate, cfgPlain, mpcInit]) optDefault_wf
    (by
      norm_num [MpcController.run, cfgPlain, probShort, mpcInit, optDefault,
        orderViolated, remainingHorizon, delayEstimate, horizonSteps,
        defaultGuess, outShort, sShort]
      decide)
    rfl

/-- The loop trace never exceeds the fuel: each executed iteration performs
exactly one `run` cycle and contributes one trace entry. -/
theorem exampleLoop_len (opt : Optimizer) (cfg : Settings) (prob : Problem)
    (noise : Nat → List ℚ) (times ctimes : Nat → ℚ) :
    ∀ (fuel i : Nat) (s : MpcState) (x : List ℚ),
      (exampleLoop opt cfg prob noise times ctimes i fuel s x).1.length ≤ fuel
  | 0, i, s, x => by simp [exampleLoop]
  | fuel + 1, i, s, x => by
      simp only [exampleLoop]
      split
      · simp
      · simp only [List.length_cons]
        exact Nat.succ_le_succ
          (exampleLoop_len opt cfg prob noise times ctimes fuel (i + 1) _ _)

/-- C9: the example's MPC loop always terminates: with `maxNumRuns` fuel it
executes at most `maxNumRuns` iterations (2000 in the example), each
performing exactly one `run` cycle, and any iteration whose break condition
(`timeHorizonReached() | !success`) holds is the last one (its trace has
exactly one entry). -/
theorem example_loop_terminates (opt : Optimizer) (cfg : Settings)
    (prob : Problem) (noise : Nat → List ℚ) (times ctimes : Nat → ℚ) :
    (∀ (fuel i : Nat) (s : MpcState) (x : List ℚ),
      (exampleLoop opt cfg prob noise times ctimes i fuel s x).1.length ≤ fuel) ∧
    (∀ (s : MpcState) (x : List ℚ),
      (exampleLoop opt cfg prob noise times ctimes 0 2000 s x).1.length ≤ 2000) ∧
    (∀ (fuel i : Nat) (s : MpcState) (x : List ℚ),
      (exampleLoop opt cfg prob noise times ctimes i (fuel + 1) s x).1.length = 1 ∨
      loopBreak opt cfg prob noise times ctimes i s x = false) := by
  refine ⟨exampleLoop_len opt cfg prob noise times ctimes,
    fun s x => exampleLoop_len opt cfg prob noise times ctimes 2000 0 s x,
    fun fuel i s x => ?_⟩
  by_cases hb : loopBreak opt cfg prob noise times ctimes i s x = true
  · left
    simp [exampleLoop, hb]
  · right
    simpa using hb

/-- A `run` call whose ordering check passes never reports an
OrderingViolation, whatever else happens in the cycle. -/
theorem run_not_ordering (opt : Optimizer) (cfg : Settings) (prob : Problem)
    (s : MpcState) (x : List ℚ) (t tc : ℚ)
    (h : orderViolated s.lastTime t = false) :
    (MpcController.run opt cfg prob s x t tc).1 ≠
      Except.error MpcError.OrderingViolation := by
  simp only [MpcController.run]
  split
  · simp
  · split
    · rename_i hv
      rw [h] at hv
      exact absurd hv (by simp)
    · split
      · simp
      · split
        · simp
        · split
          · simp
          · simp

/-- A `run` call either records the call time as the new last call time or
leaves the last call time unchanged. -/
theorem run_lastTime_cases (opt : Optimizer) (cfg : Settings) (prob : Problem)
    (s : MpcState) (x : List ℚ) (t tc : ℚ) :
    (MpcController.run opt cfg prob s x t tc).2.lastTime = some t ∨
    (MpcController.run opt cfg prob s x t tc).2.lastTime = s.lastTime := by
  simp only [MpcController.run]
  split
  · exact Or.inr rfl
  · split
    · exact Or.inr rfl
    · split
      · exact Or.inr rfl
      · split
        · exact Or.inl rfl
        · split
          · exact Or.inl rfl
          · exact Or.inl rfl

/-- The ordering check passes when every recorded last call time is at most
the current time. -/
theorem orderViolated_false_of_le (lastTime : Option ℚ) (t : ℚ)
    (h : ∀ tp, lastTime = some tp → tp ≤ t) :
    orderViolated lastTime t = false := by
  cases lastTime with
  | none => rfl
  | some tp =>
      simp only [orderViolated]
      exact decide_eq_false (not_lt.mpr (h tp rfl))

/-- C10: when the clock readings passed to the loop are monotonically
non-decreasing (as successive elapsed-time measurements from one fixed
start on one clock are), every `run` call's time-ordering precondition
holds, so no call in the example loop ever surfaces an OrderingViolation. -/
theorem loop_no_ordering_violation (opt : Optimizer) (cfg : Settings)
    (prob : Problem) (noise : Nat → List ℚ) (times ctimes : Nat → ℚ) :
    ∀ (fuel i : Nat) (s : MpcState) (x : List ℚ),
      (∀ j k : Nat, j ≤ k → times j ≤ times k) →
      (∀ tp, s.lastTime = some tp → tp ≤ times i) →
      Except.error MpcError.OrderingViolation ∉
        (exampleLoop opt cfg prob noise times ctimes i fuel s x).1
  | 0, i, s, x, _, _ => by simp [exampleLoop]
  | fuel + 1, i, s, x, hmono, hlast => by
      have hv : orderViolated s.lastTime (times i) = false :=
        orderViolated_false_of_le s.lastTime (times i) hlast
      have hres := run_not_ordering opt cfg prob s
        (loopMeasured noise i s x) (times i) (ctimes i) hv
      have hnext : ∀ tp,
          (MpcController.run opt cfg prob s (loopMeasured noise i s x)
            (times i) (ctimes i)).2.lastTime = some tp → tp ≤ times (i + 1) := by
        intro tp hp
        rcases run_lastTime_cases opt cfg prob s
          (loopMeasured noise i s x) (times i) (ctimes i) with hc | hc
        · rw [hc] at hp
          injection hp with hp
          exact hp ▸ hmono i (i + 1) (Nat.le_succ i)
        · rw [hc] at hp
          exact le_trans (hlast tp hp) (hmono i (i + 1) (Nat.le_succ i))
      simp only [exampleLoop]
      split
      · intro hmem
        rw [List.mem_singleton] at hmem
        exact hres hmem.symm
      · intro hmem
        rw [List.mem_cons] at hmem
        rcases hmem with hmem | hmem
        · exact hres hmem.symm
        · exact loop_no_ordering_violation opt cfg prob noise times ctimes
            fuel (i + 1) _ _ hmono hnext hmem

theorem loop_no_ordering_violation_witness :
    Except.error MpcError.OrderingViolation ∉
      (exampleLoop optFail cfgPlain probShort (fun _ => [0, 0])
        (fun _ => (0 : ℚ)) (fun _ => (0 : ℚ)) 0 2 mpcInit [0, 0]).1 :=
  loop_no_ordering_violation optFail cfgPlain probShort (fun _ => [0, 0])
    (fun _ => (0 : ℚ)) (fun _ => (0 : ℚ)) 2 0 mpcInit [0, 0]
    (fun _ _ _ => le_refl 0)
    (fun tp h => by simp [mpcInit] at h)

end CtMpc
